import Mathlib

/-!
Verification development for the quantum-program builder and IR of the
netqasm repository.  The definitions below are a shallow embedding of

  * the instruction / branch-label IR and the test-suite pattern matcher
    (src/tests/test_builder.py), and
  * the qubit-handle lifecycle (src/netqasm/sdk/qubit.py) together with the
    opcode-level emission behaviour of the builder, whose own source is not
    part of the covered files and is therefore modelled from the
    specification (each such definition is marked in its doc comment).

Theorems about these definitions settle the frozen claims C1 .. C10.
-/

/-- The closed opcode set of the IR (netqasm.lang.ir.GenericInstr, as listed
in section 3 of the specification and used by src/tests/test_builder.py). -/
inductive GenericInstr where
  | QALLOC | QFREE | INIT | MEAS
  | X | Y | Z | H | S | T | K
  | ROT_X | ROT_Y | ROT_Z | CNOT | CPHASE
  | SET | ADD | STORE | LOAD | ARRAY
  | CREATE_EPR | RECV_EPR | WAIT_ALL
  | BEQ | BNE | BEZ | BNZ | JMP | RET_REG | RET_ARR
  deriving DecidableEq, Repr

/-- Register roles (section 3: roles Q, R, C). -/
inductive RegRole where
  | Q | R | C
  deriving DecidableEq, Repr

/-- Operand values of an instruction (section 3): an immediate integer, a
typed register, an array handle, or an (array, index) entry.  The claims
settled here are opcode-level, so operands are carried along. -/
inductive Operand where
  | imm (value : Int)
  | reg (role : RegRole) (index : Nat)
  | arrayAddr (address : Nat)
  | arrayEntry (address : Nat) (index : Nat)
  deriving DecidableEq, Repr

/-- An instruction: an opcode together with its operands
(netqasm.lang.ir.ICmd). -/
structure ICmd where
  instruction : GenericInstr
  operands : List Operand
  deriving DecidableEq, Repr

/-- One item of a pre-subroutine: either an instruction or a branch label
(the Union of ICmd and BranchLabel used throughout test_builder.py). -/
inductive Command where
  | icmd (cmd : ICmd)
  | branchLabel (name : String)
  deriving DecidableEq, Repr

/-- Test for being a BranchLabel item (the isinstance checks of
test_builder.py). -/
def Command.isBranchLabel : Command → Bool
  | .branchLabel _ => true
  | .icmd _ => false

/-- Test for being an ICmd item carrying a given opcode
(cmd.instruction == pat in PatternMatcher). -/
def Command.hasInstr (c : Command) (i : GenericInstr) : Bool :=
  match c with
  | .icmd cmd => cmd.instruction == i
  | .branchLabel _ => false

/-- The opcode of a command, when it is an instruction. -/
def Command.instrOf : Command → Option GenericInstr
  | .icmd cmd => some cmd.instruction
  | .branchLabel _ => none

/-- One element of an inspection pattern: a literal opcode or one of the
wildcards of the PatternWildcard enum of test_builder.py. -/
inductive PatternElem where
  | instr (i : GenericInstr)
  | anyOne
  | anyZeroOrMore
  | branchLabel
  deriving DecidableEq, Repr

/-- The mutable state of PatternMatcher (fields pat_idx, cmd_idx,
match_start of test_builder.py). -/
structure MatcherState where
  patIdx : Nat
  cmdIdx : Nat
  matchStart : Option Nat
  deriving DecidableEq, Repr

/-- PatternMatcher.record_match: remember where the match began (if not yet
recorded) and advance the pattern index. -/
def recordMatch (s : MatcherState) : MatcherState :=
  { s with matchStart := some (s.matchStart.getD s.cmdIdx), patIdx := s.patIdx + 1 }

/-- PatternMatcher.reset_match: forget the match start and rewind the
pattern index to 0.  Note that the command index is NOT rewound. -/
def resetMatch (s : MatcherState) : MatcherState :=
  { s with matchStart := none, patIdx := 0 }

/-- The unconditional cmd_idx += 1 at the end of every loop iteration of
PatternMatcher.match. -/
def advanceCmd (s : MatcherState) : MatcherState :=
  { s with cmdIdx := s.cmdIdx + 1 }

/-- PatternMatcher.match_any_zero_or_more: the three assertions on the
wildcard position become error results; otherwise the pattern index jumps
over the wildcard and the following element when the current command
matches that element, and is left unchanged otherwise. -/
def matchAnyZeroOrMore (p : List PatternElem) (c : Command) (s : MatcherState) :
    Except String MatcherState :=
  if s.patIdx = 0 then .error "wildcard at start of pattern not allowed"
  else if p.length ≤ s.patIdx + 1 then .error "wildcard at end of pattern not allowed"
  else
    match p[s.patIdx + 1]? with
    | none => .error "pattern index out of range"
    | some nextPat =>
      match nextPat with
      | .anyOne => .error "wildcard directly after ANY_ZERO_OR_MORE not allowed"
      | .anyZeroOrMore => .error "wildcard directly after ANY_ZERO_OR_MORE not allowed"
      | .branchLabel =>
        .ok (if c.isBranchLabel then { s with patIdx := s.patIdx + 2 } else s)
      | .instr i =>
        .ok (if c.hasInstr i then { s with patIdx := s.patIdx + 2 } else s)

/-- One iteration of the while-loop of PatternMatcher.match: either a final
result (Sum.inl) or the successor state (Sum.inr).  The two early returns
come first, then the dispatch on the current pattern element, then the
unconditional command-index increment. -/
def matchStep (cs : List Command) (p : List PatternElem) (s : MatcherState) :
    Sum (Except String Bool) MatcherState :=
  if s.patIdx = p.length then .inl (.ok true)
  else if s.cmdIdx = cs.length then .inl (.ok false)
  else
    match p[s.patIdx]?, cs[s.cmdIdx]? with
    | none, _ => .inl (.error "pattern index out of range")
    | _, none => .inl (.error "command index out of range")
    | some pe, some c =>
      match pe with
      | .anyOne => .inr (advanceCmd (recordMatch s))
      | .branchLabel =>
        .inr (advanceCmd (if c.isBranchLabel then recordMatch s else resetMatch s))
      | .instr i =>
        .inr (advanceCmd (if c.hasInstr i then recordMatch s else resetMatch s))
      | .anyZeroOrMore =>
        match matchAnyZeroOrMore p c s with
        | .error e => .inl (.error e)
        | .ok s1 => .inr (advanceCmd s1)

/-- The while-loop of PatternMatcher.match, with explicit fuel.  Returns
none when the fuel runs out before the loop returns. -/
def matchLoop (cs : List Command) (p : List PatternElem) :
    Nat → MatcherState → Option (Except String Bool)
  | 0, _ => none
  | fuel + 1, s =>
    match matchStep cs p s with
    | .inl r => some r
    | .inr s1 => matchLoop cs p fuel s1

/-- PatternMatcher(commands, pattern).match(): run the loop from the
initial state.  Fuel length + 1 suffices (theorem patternMatcher_terminates
below); an ok result is the boolean return value, an error result is a
raised AssertionError. -/
def PatternMatcher.matchResult (cs : List Command) (p : List PatternElem) :
    Option (Except String Bool) :=
  matchLoop cs p (cs.length + 1) { patIdx := 0, cmdIdx := 0, matchStart := none }

/-- PreSubroutineInspector.contains_instr: scan the commands for an ICmd
whose opcode equals the requested one (non-ICmd items contribute none). -/
def PreSubroutineInspector.containsInstr (commands : List Command)
    (instrType : GenericInstr) : Bool :=
  commands.any fun cmd =>
    (match cmd with
     | .icmd c => some c.instruction
     | .branchLabel _ => none) == some instrType

/-- PreSubroutineInspector.match_pattern: delegate to PatternMatcher. -/
def PreSubroutineInspector.matchPattern (commands : List Command)
    (pattern : List PatternElem) : Option (Except String Bool) :=
  PatternMatcher.matchResult commands pattern

/-- Whether a non-wildcard pattern element matches one command, as used
after an ANY_ZERO_OR_MORE (section 6: the element after the wildcard is a
literal opcode or BRANCH_LABEL, never another wildcard). -/
def elemMatchesCmd (q : PatternElem) (c : Command) : Bool :=
  match q with
  | .instr i => c.hasInstr i
  | .branchLabel => c.isBranchLabel
  | .anyOne => false
  | .anyZeroOrMore => false

/-- Reference anchored matcher, written from the words of section 6 of the
specification: the pattern must match consecutively from the head of the
command list; a literal matches an ICmd with that opcode, ANY_ONE matches
any single item, BRANCH_LABEL matches any label, and ANY_ZERO_OR_MORE
skips items minimally until the following pattern element matches. -/
def refMatchFrom : List Command → List PatternElem → Bool
  | _, [] => true
  | [], _ :: _ => false
  | c :: cs, pe :: ps =>
    match pe with
    | .anyOne => refMatchFrom cs ps
    | .branchLabel => c.isBranchLabel && refMatchFrom cs ps
    | .instr i => c.hasInstr i && refMatchFrom cs ps
    | .anyZeroOrMore =>
      match ps with
      | [] => false
      | q :: ps1 =>
        if elemMatchesCmd q c then refMatchFrom cs ps1
        else refMatchFrom cs (PatternElem.anyZeroOrMore :: q :: ps1)

/-- Reference non-anchored matcher, from the words of section 6: success
means the pattern matches consecutively starting at some offset. -/
def refMatch (cs : List Command) (p : List PatternElem) : Bool :=
  (List.range (cs.length + 1)).any fun k => refMatchFrom (cs.drop k) p

theorem drop_cons_of_getElem? {α : Type} (l : List α) (i : Nat) (a : α)
    (h : l[i]? = some a) : l.drop i = a :: l.drop (i + 1) := by
  obtain ⟨hlt, heq⟩ := List.getElem?_eq_some.mp h
  subst heq
  exact List.drop_eq_getElem_cons hlt

theorem refMatchFrom_nil (cs : List Command) : refMatchFrom cs [] = true := by
  cases cs <;> rfl

theorem refMatch_of_offset (cs : List Command) (p : List PatternElem) (k : Nat)
    (hk : k ≤ cs.length) (h : refMatchFrom (cs.drop k) p = true) :
    refMatch cs p = true := by
  unfold refMatch
  rw [List.any_eq_true]
  exact ⟨k, List.mem_range.mpr (by omega), h⟩

theorem matchAnyZeroOrMore_ok_cases (p : List PatternElem) (c : Command)
    (s s1 : MatcherState) (h : matchAnyZeroOrMore p c s = .ok s1) :
    0 < s.patIdx ∧ s.patIdx + 1 < p.length ∧
    ∃ q, p[s.patIdx + 1]? = some q ∧
      s1 = (if elemMatchesCmd q c then { s with patIdx := s.patIdx + 2 } else s) := by
  unfold matchAnyZeroOrMore at h
  split at h
  · cases h
  next h0 =>
  split at h
  · cases h
  next h1 =>
  split at h
  · cases h
  next q hq =>
  cases q with
  | anyOne => cases h
  | anyZeroOrMore => cases h
  | branchLabel =>
    injection h with h
    exact ⟨Nat.pos_of_ne_zero h0, by omega, .branchLabel, hq, by simpa [elemMatchesCmd] using h.symm⟩
  | instr i =>
    injection h with h
    exact ⟨Nat.pos_of_ne_zero h0, by omega, .instr i, hq, by simpa [elemMatchesCmd] using h.symm⟩

theorem matchStep_inr_facts (cs : List Command) (p : List PatternElem)
    (s s1 : MatcherState) (h : matchStep cs p s = .inr s1) :
    s1.cmdIdx = s.cmdIdx + 1 ∧ s.patIdx ≠ p.length ∧ s.cmdIdx ≠ cs.length := by
  unfold matchStep at h
  split at h
  · cases h
  next h0 =>
  split at h
  · cases h
  next h1 =>
  refine ⟨?_, h0, h1⟩
  split at h
  · cases h
  · cases h
  next pe c hp hc =>
  split at h
  · -- anyOne
    injection h with h
    subst h
    rfl
  · -- branchLabel
    injection h with h
    subst h
    split <;> rfl
  · -- instr
    injection h with h
    subst h
    split <;> rfl
  · -- anyZeroOrMore
    split at h
    · cases h
    next s2 hs2 =>
    injection h with h
    subst h
    obtain ⟨-, -, q, -, hshape⟩ := matchAnyZeroOrMore_ok_cases p c s s2 hs2
    rw [hshape]
    split <;> rfl

/-- Invariant carried through the matcher loop for the soundness proof: the
command index stays in range, and any reference match of the remaining
pattern against the remaining commands yields a global non-anchored
reference match. -/
def SoundInv (cs : List Command) (p : List PatternElem) (s : MatcherState) : Prop :=
  s.cmdIdx ≤ cs.length ∧
  (refMatchFrom (cs.drop s.cmdIdx) (p.drop s.patIdx) = true → refMatch cs p = true)

theorem matchStep_ok_true (cs : List Command) (p : List PatternElem)
    (s : MatcherState) (h : matchStep cs p s = .inl (.ok true)) :
    s.patIdx = p.length := by
  unfold matchStep at h
  split at h
  · assumption
  split at h
  · simp at h
  split at h
  · simp at h
  · simp at h
  next pe c hp hc =>
  split at h
  · cases h
  · cases h
  · cases h
  · split at h
    · simp at h
    · cases h

theorem matchStep_inr_sound (cs : List Command) (p : List PatternElem)
    (s s1 : MatcherState) (h : matchStep cs p s = .inr s1)
    (inv : SoundInv cs p s) : SoundInv cs p s1 := by
  obtain ⟨hle, himp⟩ := inv
  obtain ⟨hc1, hpne, hcne⟩ := matchStep_inr_facts cs p s s1 h
  have hlt : s.cmdIdx < cs.length := Nat.lt_of_le_of_ne hle hcne
  refine ⟨by omega, ?_⟩
  unfold matchStep at h
  rw [if_neg hpne, if_neg hcne] at h
  split at h
  · cases h
  · cases h
  next pe c hp hc =>
  have hdc : cs.drop s.cmdIdx = c :: cs.drop (s.cmdIdx + 1) :=
    drop_cons_of_getElem? cs s.cmdIdx c hc
  have hdp : p.drop s.patIdx = pe :: p.drop (s.patIdx + 1) :=
    drop_cons_of_getElem? p s.patIdx pe hp
  split at h
  · -- anyOne
    injection h with h
    subst h
    intro hm
    apply himp
    rw [hdc, hdp]
    simpa [refMatchFrom, advanceCmd, recordMatch] using hm
  · -- branchLabel
    injection h with h
    subst h
    split
    next hb =>
      intro hm
      apply himp
      rw [hdc, hdp]
      simpa [refMatchFrom, hb, advanceCmd, recordMatch] using hm
    next hb =>
      intro hm
      refine refMatch_of_offset cs p (s.cmdIdx + 1) (by omega) ?_
      simpa [advanceCmd, resetMatch] using hm
  · -- instr
    injection h with h
    subst h
    split
    next hb =>
      intro hm
      apply himp
      rw [hdc, hdp]
      simpa [refMatchFrom, hb, advanceCmd, recordMatch] using hm
    next hb =>
      intro hm
      refine refMatch_of_offset cs p (s.cmdIdx + 1) (by omega) ?_
      simpa [advanceCmd, resetMatch] using hm
  · -- anyZeroOrMore
    split at h
    · cases h
    next s2 hs2 =>
    injection h with h
    subst h
    obtain ⟨-, hplen, q, hq, hshape⟩ := matchAnyZeroOrMore_ok_cases p c s s2 hs2
    have hdp2 : p.drop (s.patIdx + 1) = q :: p.drop (s.patIdx + 2) :=
      drop_cons_of_getElem? p (s.patIdx + 1) q hq
    rw [hshape]
    split
    next hmq =>
      intro hm
      apply himp
      rw [hdc, hdp, hdp2]
      simp only [refMatchFrom, hmq, if_pos]
      simpa [advanceCmd] using hm
    next hmq =>
      intro hm
      apply himp
      rw [hdc, hdp, hdp2]
      simp only [refMatchFrom, hmq, Bool.false_eq_true, if_neg]
      rw [← hdp2, ← hdp]
      simpa [advanceCmd] using hm

theorem matchLoop_sound (cs : List Command) (p : List PatternElem) :
    ∀ (fuel : Nat) (s : MatcherState), SoundInv cs p s →
      matchLoop cs p fuel s = some (.ok true) → refMatch cs p = true := by
  intro fuel
  induction fuel with
  | zero => intro s _ h; simp [matchLoop] at h
  | succ n ih =>
    intro s inv h
    rw [matchLoop] at h
    cases hstep : matchStep cs p s with
    | inl r =>
      rw [hstep] at h
      injection h with h
      subst h
      have hpat := matchStep_ok_true cs p s hstep
      apply inv.2
      rw [hpat, List.drop_length, refMatchFrom_nil]
    | inr s1 =>
      rw [hstep] at h
      exact ih s1 (matchStep_inr_sound cs p s s1 hstep inv) h

theorem matchLoop_isSome (cs : List Command) (p : List PatternElem) :
    ∀ (fuel : Nat) (s : MatcherState), s.cmdIdx ≤ cs.length →
      cs.length + 1 ≤ s.cmdIdx + fuel → (matchLoop cs p fuel s).isSome = true := by
  intro fuel
  induction fuel with
  | zero => intro s hle hf; omega
  | succ n ih =>
    intro s hle hf
    rw [matchLoop]
    cases hstep : matchStep cs p s with
    | inl r => simp
    | inr s1 =>
      obtain ⟨h1, -, hne⟩ := matchStep_inr_facts cs p s s1 hstep
      exact ih s1 (by omega) (by omega)

/-- Claim C10: PatternMatcher.match terminates on every finite command list
and pattern: every loop iteration that does not return advances the command
index by exactly one, and the loop from the initial state returns a result
within length(commands) + 1 iterations (the fuel used by matchResult). -/
theorem patternMatcher_terminates (cs : List Command) (p : List PatternElem) :
    (∀ s s1 : MatcherState, matchStep cs p s = .inr s1 → s1.cmdIdx = s.cmdIdx + 1) ∧
    (PatternMatcher.matchResult cs p).isSome = true := by
  constructor
  · intro s s1 h
    exact (matchStep_inr_facts cs p s s1 h).1
  · exact matchLoop_isSome cs p (cs.length + 1) _ (Nat.zero_le _) (by omega)

theorem patternMatcher_terminates_witness :
    (⟨1, 1, some 0⟩ : MatcherState).cmdIdx = (⟨0, 0, none⟩ : MatcherState).cmdIdx + 1 ∧
    (PatternMatcher.matchResult [Command.icmd ⟨.X, []⟩] [.instr .X]).isSome = true :=
  ⟨(patternMatcher_terminates [Command.icmd ⟨.X, []⟩] [.instr .X]).1 ⟨0, 0, none⟩
      ⟨1, 1, some 0⟩ rfl,
   (patternMatcher_terminates [Command.icmd ⟨.X, []⟩] [.instr .X]).2⟩

/-- Claim C1, amended: the inspector matcher is sound for the wildcard
semantics of section 6 — whenever match_pattern returns true, the pattern
matches consecutively starting at some offset of the command list.  The
converse direction of the original claim is false (see
match_pattern_not_complete): on a mid-pattern mismatch the matcher
restarts at the next command index instead of at match_start + 1, so it
can miss overlapping occurrences. -/
theorem match_pattern_sound (cs : List Command) (p : List PatternElem)
    (h : PreSubroutineInspector.matchPattern cs p = some (.ok true)) :
    refMatch cs p = true := by
  apply matchLoop_sound cs p (cs.length + 1) _ _ h
  refine ⟨Nat.zero_le _, fun hm => ?_⟩
  apply refMatch_of_offset cs p 0 (Nat.zero_le _)
  simpa using hm

theorem match_pattern_sound_witness :
    refMatch [Command.icmd ⟨.X, []⟩] [.instr .X] = true :=
  match_pattern_sound [Command.icmd ⟨.X, []⟩] [.instr .X] rfl

/-- Claim C1, counterexample: on commands X, X, H the pattern X, H matches
at offset 1 under the reference semantics, but PatternMatcher.match
returns false, because after matching the first X it resets on the second
X without rewinding the command cursor.  So match_pattern is NOT
equivalent to the reference non-anchored matcher. -/
theorem match_pattern_not_complete :
    PreSubroutineInspector.matchPattern
      [Command.icmd ⟨.X, []⟩, Command.icmd ⟨.X, []⟩, Command.icmd ⟨.H, []⟩]
      [.instr .X, .instr .H] = some (.ok false) ∧
    refMatch
      [Command.icmd ⟨.X, []⟩, Command.icmd ⟨.X, []⟩, Command.icmd ⟨.H, []⟩]
      [.instr .X, .instr .H] = true :=
  ⟨rfl, by decide⟩

/-- Claim C7, amended: the wildcard-placement assertions live in
match_any_zero_or_more and fire only while matching, when the offending
ANY_ZERO_OR_MORE is dispatched with a command remaining — not at
construction.  For a pattern starting with the wildcard: any non-empty
command list makes match raise the wildcard-at-start assertion, while the
empty command list returns false with no error at all. -/
theorem wildcard_start_checked_during_match (cs : List Command)
    (rest : List PatternElem) :
    PreSubroutineInspector.matchPattern cs (.anyZeroOrMore :: rest) =
      some (if cs.isEmpty then .ok false
            else .error "wildcard at start of pattern not allowed") := by
  cases cs with
  | nil => rfl
  | cons c cs1 =>
    show matchLoop _ _ _ _ = _
    rw [matchLoop]
    have hstep : matchStep (c :: cs1) (.anyZeroOrMore :: rest)
        ⟨0, 0, none⟩ = .inl (.error "wildcard at start of pattern not allowed") := by
      unfold matchStep
      rw [if_neg (by simp), if_neg (by simp)]
      simp [matchAnyZeroOrMore]
    rw [hstep]
    simp

/-- Claim C7, counterexample: the pattern consisting of a single
ANY_ZERO_OR_MORE is invalid (wildcard at start and at end), yet with an
empty command list the inspector neither fails at construction nor during
match — it just returns false.  Invalidity is therefore not detected at
construction, and not independently of the command list. -/
theorem wildcard_invalid_not_checked_at_construction :
    PreSubroutineInspector.matchPattern [] [.anyZeroOrMore] = some (.ok false) := rfl

theorem containsInstr_eq_any (cs : List Command) (op : GenericInstr) :
    PreSubroutineInspector.containsInstr cs op = cs.any fun c => c.hasInstr op := by
  unfold PreSubroutineInspector.containsInstr
  induction cs with
  | nil => rfl
  | cons c t ih =>
    rw [List.any_cons, List.any_cons, ih]
    cases c <;> rfl

theorem matchLoop_succ_inl (cs : List Command) (p : List PatternElem)
    (n : Nat) (s : MatcherState) (r : Except String Bool)
    (h : matchStep cs p s = .inl r) : matchLoop cs p (n + 1) s = some r := by
  rw [matchLoop, h]

theorem matchLoop_succ_inr (cs : List Command) (p : List PatternElem)
    (n : Nat) (s s1 : MatcherState)
    (h : matchStep cs p s = .inr s1) : matchLoop cs p (n + 1) s = matchLoop cs p n s1 := by
  rw [matchLoop, h]

theorem matchLoop_single_instr (cs : List Command) (op : GenericInstr) :
    ∀ (fuel i : Nat) (ms : Option Nat), i ≤ cs.length → cs.length + 1 ≤ i + fuel →
      matchLoop cs [.instr op] fuel ⟨0, i, ms⟩ =
        some (.ok ((cs.drop i).any fun c => c.hasInstr op)) := by
  intro fuel
  induction fuel with
  | zero => intro i ms h1 h2; omega
  | succ n ih =>
    intro i ms h1 h2
    by_cases hi : i = cs.length
    · subst hi
      have hstep : matchStep cs [.instr op] ⟨0, cs.length, ms⟩ = .inl (.ok false) := by
        unfold matchStep
        rw [if_neg (by simp), if_pos rfl]
      rw [matchLoop_succ_inl _ _ _ _ _ hstep, List.drop_length]
      simp
    · have hlt : i < cs.length := by omega
      obtain ⟨c, hc⟩ : ∃ c, cs[i]? = some c := ⟨_, List.getElem?_eq_getElem hlt⟩
      have hdc : cs.drop i = c :: cs.drop (i + 1) := drop_cons_of_getElem? cs i c hc
      by_cases hb : c.hasInstr op = true
      · have hstep : matchStep cs [.instr op] ⟨0, i, ms⟩ =
            .inr ⟨1, i + 1, some (ms.getD i)⟩ := by
          unfold matchStep
          rw [if_neg (by simp), if_neg hi, hc]
          simp [hb, advanceCmd, recordMatch]
        rw [matchLoop_succ_inr _ _ _ _ _ hstep]
        obtain ⟨m, rfl⟩ : ∃ m, n = m + 1 := ⟨n - 1, by omega⟩
        have hstep2 : matchStep cs [.instr op] ⟨1, i + 1, some (ms.getD i)⟩ =
            .inl (.ok true) := rfl
        rw [matchLoop_succ_inl _ _ _ _ _ hstep2, hdc, List.any_cons, hb, Bool.true_or]
      · have hstep : matchStep cs [.instr op] ⟨0, i, ms⟩ = .inr ⟨0, i + 1, none⟩ := by
          unfold matchStep
          rw [if_neg (by simp), if_neg hi, hc]
          simp [hb, advanceCmd, resetMatch]
        rw [matchLoop_succ_inr _ _ _ _ _ hstep]
        rw [ih (i + 1) none (by omega) (by omega), hdc, List.any_cons,
          eq_false_of_ne_true hb, Bool.false_or]

/-- Claim C8: the two inspection entry points agree on single-opcode
queries — match_pattern on the one-element pattern consisting of a literal
opcode returns exactly the boolean contains_instr computes, on every
command list (including the empty one, where both give false). -/
theorem contains_instr_agrees_with_match_pattern (cs : List Command)
    (op : GenericInstr) :
    PreSubroutineInspector.matchPattern cs [.instr op] =
      some (.ok (PreSubroutineInspector.containsInstr cs op)) := by
  unfold PreSubroutineInspector.matchPattern PatternMatcher.matchResult
  rw [matchLoop_single_instr cs op (cs.length + 1) 0 none (Nat.zero_le _) (by omega)]
  rw [List.drop_zero, containsInstr_eq_any]

/-- A qubit handle as seen through src/netqasm/sdk/qubit.py: the fields
qubit_id and active of a Qubit object.  Distinct Python objects are
modelled by distinct tokens: a token is the position of the handle in the
allocation list of the world below, so Python object identity (used by the
membership tests on active_qubits) becomes token equality. -/
structure QubitHandle where
  qubitId : Nat
  active : Bool
  deriving DecidableEq, Repr

/-- A deferred measurement outcome (netqasm.sdk.futures): either an array
cell or a register (section 3: ArrayFuture and RegFuture). -/
inductive Future where
  | arrayFuture (address : Nat) (index : Nat)
  | regFuture (reg : Nat)
  deriving DecidableEq, Repr

/-- The state shared by a builder and its qubit handles: the pending
pre-subroutine commands, the active-qubit list (builder.active_qubits,
holding handle tokens in insertion order), the allocation list of all
handles ever constructed (a token is an index into it), and the symbolic
allocator counters of section 4.1 (modelled from the spec: monotonically
increasing counters). -/
structure World where
  commands : List Command
  activeQubits : List Nat
  handles : List QubitHandle
  nextQubitId : Nat
  nextArrayAddress : Nat
  nextRegIndex : Nat
  deriving DecidableEq, Repr

/-- The world before any operation: a fresh builder. -/
def initialWorld : World :=
  { commands := [], activeQubits := [], handles := [],
    nextQubitId := 0, nextArrayAddress := 0, nextRegIndex := 0 }

/-- The active flag of the handle with the given token, if the token is
valid. -/
def World.activeFlag (w : World) (t : Nat) : Option Bool :=
  (w.handles[t]?).map QubitHandle.active

/-- Append emitted commands to the pending pre-subroutine. -/
def World.emit (w : World) (cs : List Command) : World :=
  { w with commands := w.commands ++ cs }

/-- Write the active field of the handle with token t (the assignments
self._active = ... in qubit.py).  Invalid tokens leave the world
unchanged (a Python object reference is always valid). -/
def setFlag (w : World) (t : Nat) (b : Bool) : World :=
  match w.handles[t]? with
  | some h => { w with handles := w.handles.set t { h with active := b } }
  | none => w

/-- Qubit._activate: set the flag to true and append the handle to the
active_qubits list of the builder unless it is already present. -/
def activateTok (w : World) (t : Nat) : World :=
  let w1 := setFlag w t true
  if t ∈ w1.activeQubits then w1
  else { w1 with activeQubits := w1.activeQubits ++ [t] }

/-- Qubit._deactivate: set the flag to false and remove the handle from
active_qubits if present (list.remove drops the first occurrence). -/
def deactivateTok (w : World) (t : Nat) : World :=
  let w1 := setFlag w t false
  if t ∈ w1.activeQubits then { w1 with activeQubits := w1.activeQubits.erase t }
  else w1

/-- The Qubit.active property setter: if the flag already has the
requested value, return immediately; otherwise write the flag and run
_activate or _deactivate. -/
def setActive (w : World) (t : Nat) (b : Bool) : World :=
  match w.handles[t]? with
  | none => w
  | some h =>
    if h.active = b then w
    else
      let w1 := setFlag w t b
      if b then activateTok w1 t else deactivateTok w1 t

/-- Schematic qubit-unit register operand used in the emitted commands:
the claims settled here are about opcodes and their order, the register
indices chosen by the builder are outside the covered sources. -/
def qubitOperand (qubitId : Nat) : Operand := .reg .Q qubitId

/-- Modelled from the spec: Builder.add_new_qubit_commands is not under
src/.  Sections 3 and 4.2: construction emits QALLOC, INIT and the SET
binding the Q register to the immediate virtual id (scenario S1 requires
the consecutive order QALLOC, INIT, SET). -/
def addNewQubitCommands (w : World) (qubitId : Nat) : World :=
  w.emit
    [Command.icmd ⟨.QALLOC, [qubitOperand qubitId]⟩,
     Command.icmd ⟨.INIT, [qubitOperand qubitId]⟩,
     Command.icmd ⟨.SET, [qubitOperand qubitId, .imm (Int.ofNat qubitId)]⟩]

/-- Modelled from the spec: Builder.new_qubit_id is not under src/.
Section 4.1: a monotonically increasing counter. -/
def newQubitId (w : World) : Nat × World :=
  (w.nextQubitId, { w with nextQubitId := w.nextQubitId + 1 })

/-- Qubit.__init__ of qubit.py: choose the virtual id (fresh unless an
explicit virtual_address is given), optionally emit the allocation
commands, then construct the handle with active = false and run
_activate, which auto-registers it in active_qubits.  Returns the new
world and the token of the new handle. -/
def qubitInit (w : World) (addNewCommand : Bool) (virtualAddress : Option Nat) :
    World × Nat :=
  let (qid, w1) :=
    match virtualAddress with
    | none => newQubitId w
    | some va => (va, w)
  let w2 := if addNewCommand then addNewQubitCommands w1 qid else w1
  let t := w2.handles.length
  let w3 := { w2 with handles := w2.handles ++ [{ qubitId := qid, active := false }] }
  (activateTok w3 t, t)

/-- Modelled from the spec: Builder.add_single_qubit_commands is not under
src/.  Section 4.2: emits the SET of the operand register then the gate
instruction. -/
def addSingleQubitCommands (w : World) (instr : GenericInstr) (qubitId : Nat) : World :=
  w.emit
    [Command.icmd ⟨.SET, [qubitOperand qubitId, .imm (Int.ofNat qubitId)]⟩,
     Command.icmd ⟨instr, [qubitOperand qubitId]⟩]

/-- Modelled from the spec: Builder.add_two_qubit_commands is not under
src/.  Section 4.2: emits the SETs of the operand registers then the gate
instruction. -/
def addTwoQubitCommands (w : World) (instr : GenericInstr)
    (controlQubitId targetQubitId : Nat) : World :=
  w.emit
    [Command.icmd ⟨.SET, [qubitOperand controlQubitId, .imm (Int.ofNat controlQubitId)]⟩,
     Command.icmd ⟨.SET, [qubitOperand targetQubitId, .imm (Int.ofNat targetQubitId)]⟩,
     Command.icmd ⟨instr, [qubitOperand controlQubitId, qubitOperand targetQubitId]⟩]

/-- Modelled from the spec: Builder.add_single_qubit_rotation_commands is
not under src/.  Section 4.2, angle-None path: a single rotation
instruction with the immediate pair n, d (the angle-Some path is a
floating-point approximation outside this development). -/
def addSingleQubitRotationCommands (w : World) (instruction : GenericInstr)
    (virtualQubitId n d : Nat) : World :=
  w.emit
    [Command.icmd ⟨.SET, [qubitOperand virtualQubitId, .imm (Int.ofNat virtualQubitId)]⟩,
     Command.icmd ⟨instruction,
       [qubitOperand virtualQubitId, .imm (Int.ofNat n), .imm (Int.ofNat d)]⟩]

/-- Modelled from the spec: Builder.add_qfree_commands is not under src/.
Section 4.2: emits QFREE for the given qubit id, and nothing else. -/
def addQfreeCommands (w : World) (qubitId : Nat) : World :=
  w.emit [Command.icmd ⟨.QFREE, [qubitOperand qubitId]⟩]

/-- Modelled from the spec: Builder.new_array is not under src/.  Section
4.2: allocates an array address and emits ARRAY with the length at that
address. -/
def newArray (w : World) (length : Nat) : World × Nat :=
  let addr := w.nextArrayAddress
  ({ w with nextArrayAddress := addr + 1,
            commands := w.commands ++
              [Command.icmd ⟨.ARRAY, [.imm (Int.ofNat length), .arrayAddr addr]⟩] },
   addr)

/-- The future-argument preparation at the top of Qubit.measure: when no
future is supplied, either allocate a 1-cell array and take the future of
its index 0 (store_array true), or construct a RegFuture (store_array
false; modelled from the spec, section 3: a RegFuture is backed by a
register, its construction emits nothing). -/
def futureSetup (w : World) (future : Option Future) (storeArray : Bool) :
    World × Future :=
  match future with
  | some f => (w, f)
  | none =>
    if storeArray then
      let (w1, addr) := newArray w 1
      (w1, .arrayFuture addr 0)
    else
      ({ w with nextRegIndex := w.nextRegIndex + 1 }, .regFuture w.nextRegIndex)

/-- The commands futureSetup appends, as a pure function of the incoming
world. -/
def futureSetupCommands (w : World) (future : Option Future) (storeArray : Bool) :
    List Command :=
  match future with
  | some _ => []
  | none =>
    if storeArray then
      [Command.icmd ⟨.ARRAY, [.imm (Int.ofNat 1), .arrayAddr w.nextArrayAddress]⟩]
    else []

/-- The MEAS instruction of a measurement lowering (schematic outcome
register). -/
def measCmd (qubitId : Nat) : Command :=
  .icmd ⟨.MEAS, [qubitOperand qubitId, .reg .R 0]⟩

/-- The STORE of the measurement outcome into the backing cell or register
of the future. -/
def storeCmd (future : Future) : Command :=
  match future with
  | .arrayFuture addr idx => .icmd ⟨.STORE, [.reg .R 0, .arrayEntry addr idx]⟩
  | .regFuture r => .icmd ⟨.STORE, [.reg .R 0, .reg .R r]⟩

/-- The QFREE of a measured qubit. -/
def qfreeCmd (qubitId : Nat) : Command :=
  .icmd ⟨.QFREE, [qubitOperand qubitId]⟩

/-- Modelled from the spec and the tests of the repository:
Builder.add_measure_commands is not under src/.  Section 4.2 of the spec
lists the order MEAS, STORE, QFREE, but the tests under src
(test_branching and test_futures in src/tests/test_builder.py) assert the
emitted pattern MEAS, QFREE, STORE consecutively, and scenario S3 of
section 8 of the spec repeats that pattern; the tests are code of the
repository and pin the order, so here MEAS is followed by QFREE (unless
inplace) and then the STORE into the backing cell/register of the future. -/
def addMeasureCommands (w : World) (qubitId : Nat) (future : Future)
    (inplace : Bool) : World :=
  w.emit ([measCmd qubitId] ++ (if inplace then [] else [qfreeCmd qubitId])
    ++ [storeCmd future])

/-- The measurement lowering performed by Qubit.measure after the active
check: prepare the future, then add_measure_commands. -/
def measureLowered (w : World) (qubitId : Nat) (future : Option Future)
    (inplace storeArray : Bool) : World × Future :=
  let (w1, fut) := futureSetup w future storeArray
  (addMeasureCommands w1 qubitId fut inplace, fut)

/-- Qubit.assert_active of qubit.py: raise QubitNotActiveError when the
handle is not active. -/
def Qubit.assert_active (w : World) (t : Nat) : Except String Unit :=
  if w.activeFlag t = some true then .ok () else .error "QubitNotActiveError"

/-- Qubit.measure of qubit.py: assert_active first; prepare the future if
none was given; emit the measurement lowering; finally, if not inplace,
run the active setter with false (deactivating the handle and removing it
from active_qubits).  Returns the future holding the outcome. -/
def Qubit.measure (w : World) (t : Nat) (future : Option Future)
    (inplace storeArray : Bool) : Except String (World × Future) :=
  match Qubit.assert_active w t, w.handles[t]? with
  | .error e, _ => .error e
  | .ok _, none => .error "dangling handle token"
  | .ok _, some h =>
    let (w1, fut) := measureLowered w h.qubitId future inplace storeArray
    .ok (if inplace then (w1, fut) else (setActive w1 t false, fut))

/-- Qubit.X of qubit.py: dispatch to the builder with the stored qubit_id.
There is no assert_active call on this path. -/
def Qubit.X (w : World) (t : Nat) : Except String World :=
  match w.handles[t]? with
  | none => .error "dangling handle token"
  | some h => .ok (addSingleQubitCommands w .X h.qubitId)

/-- Qubit.H of qubit.py: dispatch to the builder with the stored qubit_id.
There is no assert_active call on this path. -/
def Qubit.H (w : World) (t : Nat) : Except String World :=
  match w.handles[t]? with
  | none => .error "dangling handle token"
  | some h => .ok (addSingleQubitCommands w .H h.qubitId)

/-- Qubit.rot_X of qubit.py (angle-None path): dispatch to the builder
with the stored qubit_id and the immediate pair n, d.  There is no
assert_active call on this path. -/
def Qubit.rot_X (w : World) (t : Nat) (n d : Nat) : Except String World :=
  match w.handles[t]? with
  | none => .error "dangling handle token"
  | some h => .ok (addSingleQubitRotationCommands w .ROT_X h.qubitId n d)

/-- Qubit.cnot of qubit.py: dispatch to the builder with the control and
target qubit_ids.  There is no assert_active call on this path. -/
def Qubit.cnot (w : World) (t tTarget : Nat) : Except String World :=
  match w.handles[t]?, w.handles[tTarget]? with
  | some h, some ht => .ok (addTwoQubitCommands w .CNOT h.qubitId ht.qubitId)
  | _, _ => .error "dangling handle token"

/-- Qubit.free of qubit.py: dispatch add_qfree_commands with the stored
qubit_id.  Nothing else happens: the flag and active_qubits are not
touched. -/
def Qubit.free (w : World) (t : Nat) : Except String World :=
  match w.handles[t]? with
  | none => .error "dangling handle token"
  | some h => .ok (addQfreeCommands w h.qubitId)

/-- The qubit-lifecycle operations of claim C6: construction, the active
setter, measure, free. -/
inductive QubitOp where
  | construct (addNewCommand : Bool) (virtualAddress : Option Nat)
  | setActiveFlag (t : Nat) (b : Bool)
  | measureOp (t : Nat) (future : Option Future) (inplace storeArray : Bool)
  | freeOp (t : Nat)
  deriving DecidableEq, Repr

/-- Apply one lifecycle operation; a raised error leaves the world as it
was at the raise point (both raising operations raise before any
mutation). -/
def applyOp (w : World) (op : QubitOp) : World :=
  match op with
  | .construct a va => (qubitInit w a va).1
  | .setActiveFlag t b => setActive w t b
  | .measureOp t fut ip sa =>
    match Qubit.measure w t fut ip sa with
    | .ok (w1, _) => w1
    | .error _ => w
  | .freeOp t =>
    match Qubit.free w t with
    | .ok w1 => w1
    | .error _ => w

theorem setFlag_activeQubits (w : World) (t : Nat) (b : Bool) :
    (setFlag w t b).activeQubits = w.activeQubits := by
  unfold setFlag
  split <;> rfl

theorem setFlag_commands (w : World) (t : Nat) (b : Bool) :
    (setFlag w t b).commands = w.commands := by
  unfold setFlag
  split <;> rfl

theorem setFlag_length (w : World) (t : Nat) (b : Bool) :
    (setFlag w t b).handles.length = w.handles.length := by
  unfold setFlag
  split <;> simp

theorem setFlag_getElem_self (w : World) (t : Nat) (b : Bool) (hd : QubitHandle)
    (h : w.handles[t]? = some hd) :
    (setFlag w t b).handles[t]? = some { hd with active := b } := by
  unfold setFlag
  rw [h]
  exact List.getElem?_set_eq_of_lt _ (List.getElem?_eq_some.mp h).1

theorem setFlag_getElem_other (w : World) (t : Nat) (b : Bool) (u : Nat)
    (hne : t ≠ u) : (setFlag w t b).handles[u]? = w.handles[u]? := by
  unfold setFlag
  split
  · exact List.getElem?_set_ne hne
  · rfl

theorem activateTok_handles (w : World) (t : Nat) :
    (activateTok w t).handles = (setFlag w t true).handles := by
  simp only [activateTok]
  split <;> rfl

theorem activateTok_commands (w : World) (t : Nat) :
    (activateTok w t).commands = w.commands := by
  simp only [activateTok]
  split <;> simp [setFlag_commands]

theorem activateTok_activeQubits (w : World) (t : Nat) :
    (activateTok w t).activeQubits =
      if t ∈ w.activeQubits then w.activeQubits else w.activeQubits ++ [t] := by
  simp only [activateTok, setFlag_activeQubits]
  split <;> simp_all [setFlag_activeQubits]

theorem deactivateTok_handles (w : World) (t : Nat) :
    (deactivateTok w t).handles = (setFlag w t false).handles := by
  simp only [deactivateTok]
  split <;> rfl

theorem deactivateTok_commands (w : World) (t : Nat) :
    (deactivateTok w t).commands = w.commands := by
  simp only [deactivateTok]
  split <;> simp [setFlag_commands]

theorem deactivateTok_activeQubits (w : World) (t : Nat) :
    (deactivateTok w t).activeQubits =
      if t ∈ w.activeQubits then w.activeQubits.erase t else w.activeQubits := by
  simp only [deactivateTok, setFlag_activeQubits]
  split <;> simp_all [setFlag_activeQubits]

theorem setActive_commands (w : World) (t : Nat) (b : Bool) :
    (setActive w t b).commands = w.commands := by
  unfold setActive
  split
  · rfl
  split
  · rfl
  split
  · rw [activateTok_commands, setFlag_commands]
  · rw [deactivateTok_commands, setFlag_commands]

theorem emit_activeQubits (w : World) (cs : List Command) :
    (w.emit cs).activeQubits = w.activeQubits := rfl

theorem emit_handles (w : World) (cs : List Command) :
    (w.emit cs).handles = w.handles := rfl

theorem measureLowered_handles (w : World) (qid : Nat) (future : Option Future)
    (inplace storeArray : Bool) :
    (measureLowered w qid future inplace storeArray).1.handles = w.handles := by
  cases future with
  | some f => rfl
  | none => cases storeArray <;> rfl

theorem measureLowered_activeQubits (w : World) (qid : Nat) (future : Option Future)
    (inplace storeArray : Bool) :
    (measureLowered w qid future inplace storeArray).1.activeQubits = w.activeQubits := by
  cases future with
  | some f => rfl
  | none => cases storeArray <;> rfl

theorem measureLowered_commands (w : World) (qid : Nat) (future : Option Future)
    (inplace storeArray : Bool) :
    (measureLowered w qid future inplace storeArray).1.commands =
      w.commands ++ futureSetupCommands w future storeArray ++ [measCmd qid] ++
        (if inplace then [] else [qfreeCmd qid]) ++
        [storeCmd (measureLowered w qid future inplace storeArray).2] := by
  cases future with
  | some f => simp [measureLowered, futureSetup, futureSetupCommands,
      addMeasureCommands, World.emit]
  | none =>
    cases storeArray <;>
      simp [measureLowered, futureSetup, futureSetupCommands, newArray,
        addMeasureCommands, World.emit]

theorem activeFlag_congr (w1 w2 : World) (t : Nat) (h : w1.handles = w2.handles) :
    w1.activeFlag t = w2.activeFlag t := by
  unfold World.activeFlag
  rw [h]

/-- The builder invariant behind claim C6: every token in active_qubits
names an allocated handle, active_qubits has no duplicates, and a handle
is active exactly when its token is in active_qubits. -/
def WorldInv (w : World) : Prop :=
  (∀ t, t ∈ w.activeQubits → t < w.handles.length) ∧
  w.activeQubits.Nodup ∧
  (∀ t hd, w.handles[t]? = some hd → (hd.active = true ↔ t ∈ w.activeQubits))

theorem WorldInv_of_eq (w1 w2 : World) (hh : w1.handles = w2.handles)
    (ha : w1.activeQubits = w2.activeQubits) (inv : WorldInv w1) : WorldInv w2 := by
  obtain ⟨hbound, hnd, hiff⟩ := inv
  refine ⟨?_, ?_, ?_⟩
  · rw [← ha, ← hh]; exact hbound
  · rw [← ha]; exact hnd
  · rw [← ha, ← hh]; exact hiff

theorem inv_setActive (w : World) (t : Nat) (b : Bool) (inv : WorldInv w) :
    WorldInv (setActive w t b) := by
  obtain ⟨hbound, hnd, hiff⟩ := inv
  unfold setActive
  split
  · exact ⟨hbound, hnd, hiff⟩
  next hd hget =>
  split
  · exact ⟨hbound, hnd, hiff⟩
  next hne =>
  have hlt : t < w.handles.length := (List.getElem?_eq_some.mp hget).1
  split
  next hb =>
    -- b = true, so the handle was inactive and t is not in active_qubits
    subst hb
    have hdf : hd.active = false := by
      revert hne; cases hd.active <;> simp
    have tnotin : t ∉ w.activeQubits := fun hmem =>
      absurd ((hiff t hd hget).mpr hmem) (by simp [hdf])
    have hq : (activateTok (setFlag w t true) t).activeQubits =
        w.activeQubits ++ [t] := by
      rw [activateTok_activeQubits, setFlag_activeQubits, if_neg tnotin]
    refine ⟨?_, ?_, ?_⟩
    · intro u hu
      rw [hq, List.mem_append] at hu
      rw [activateTok_handles, setFlag_length, setFlag_length]
      rcases hu with hu | hu
      · exact hbound u hu
      · have hu2 : u = t := by simpa using hu
        rw [hu2]
        exact hlt
    · rw [hq]
      simp [List.nodup_append, hnd, tnotin]
    · intro u hd2 hget2
      rw [activateTok_handles] at hget2
      rw [hq, List.mem_append]
      by_cases hu : u = t
      · subst hu
        have h1 := setFlag_getElem_self w u true hd hget
        have h2 := setFlag_getElem_self (setFlag w u true) u true _ h1
        rw [h2] at hget2
        injection hget2 with hget2
        subst hget2
        simp
      · rw [setFlag_getElem_other _ _ _ _ (fun h => hu h.symm),
          setFlag_getElem_other _ _ _ _ (fun h => hu h.symm)] at hget2
        rw [hiff u hd2 hget2]
        simp [hu]
  next hb =>
    -- b = false, so the handle was active and t is in active_qubits
    have hbf : b = false := by revert hb; cases b <;> simp
    subst hbf
    have hdt : hd.active = true := by
      revert hne; cases hd.active <;> simp
    have tmem : t ∈ w.activeQubits := (hiff t hd hget).mp hdt
    have hq : (deactivateTok (setFlag w t false) t).activeQubits =
        w.activeQubits.erase t := by
      rw [deactivateTok_activeQubits, setFlag_activeQubits, if_pos tmem]
    refine ⟨?_, ?_, ?_⟩
    · intro u hu
      rw [hq] at hu
      rw [deactivateTok_handles, setFlag_length, setFlag_length]
      exact hbound u (List.mem_of_mem_erase hu)
    · rw [hq]
      exact hnd.erase t
    · intro u hd2 hget2
      rw [deactivateTok_handles] at hget2
      rw [hq, hnd.mem_erase_iff]
      by_cases hu : u = t
      · subst hu
        have h1 := setFlag_getElem_self w u false hd hget
        have h2 := setFlag_getElem_self (setFlag w u false) u false _ h1
        rw [h2] at hget2
        injection hget2 with hget2
        subst hget2
        simp
      · rw [setFlag_getElem_other _ _ _ _ (fun h => hu h.symm),
          setFlag_getElem_other _ _ _ _ (fun h => hu h.symm)] at hget2
        rw [hiff u hd2 hget2]
        simp [hu, tmem]

theorem qubitInit_decomp (w : World) (a : Bool) (va : Option Nat) :
    ∃ (qid : Nat) (w2 : World), qubitInit w a va =
        (activateTok { w2 with handles := w2.handles ++ [⟨qid, false⟩] }
          w2.handles.length, w2.handles.length) ∧
      w2.handles = w.handles ∧ w2.activeQubits = w.activeQubits := by
  cases va with
  | none =>
    cases a with
    | false =>
      exact ⟨w.nextQubitId, { w with nextQubitId := w.nextQubitId + 1 }, rfl, rfl, rfl⟩
    | true =>
      exact ⟨w.nextQubitId,
        addNewQubitCommands { w with nextQubitId := w.nextQubitId + 1 } w.nextQubitId,
        rfl, rfl, rfl⟩
  | some va =>
    cases a with
    | false => exact ⟨va, w, rfl, rfl, rfl⟩
    | true => exact ⟨va, addNewQubitCommands w va, rfl, rfl, rfl⟩

theorem inv_freshActivate (w : World) (qid : Nat) (inv : WorldInv w) :
    WorldInv (activateTok { w with handles := w.handles ++ [⟨qid, false⟩] }
      w.handles.length) := by
  obtain ⟨hbound, hnd, hiff⟩ := inv
  have tnotin : w.handles.length ∉ w.activeQubits := fun hmem =>
    absurd (hbound _ hmem) (by omega)
  have hget3 : ({ w with handles := w.handles ++ [⟨qid, false⟩] } : World).handles[w.handles.length]? =
      some ⟨qid, false⟩ := by simp
  have hq : (activateTok { w with handles := w.handles ++ [⟨qid, false⟩] }
      w.handles.length).activeQubits = w.activeQubits ++ [w.handles.length] := by
    rw [activateTok_activeQubits]
    exact if_neg tnotin
  have hlen : (activateTok { w with handles := w.handles ++ [⟨qid, false⟩] }
      w.handles.length).handles.length = w.handles.length + 1 := by
    rw [activateTok_handles, setFlag_length]
    simp
  refine ⟨?_, ?_, ?_⟩
  · intro u hu
    rw [hq, List.mem_append] at hu
    rw [hlen]
    rcases hu with hu | hu
    · have := hbound u hu
      omega
    · have hu2 : u = w.handles.length := by simpa using hu
      omega
  · rw [hq]
    simp [List.nodup_append, hnd, tnotin]
  · intro u hd2 hget2
    rw [activateTok_handles] at hget2
    rw [hq, List.mem_append]
    by_cases hu : u = w.handles.length
    · subst hu
      rw [setFlag_getElem_self _ _ _ _ hget3] at hget2
      injection hget2 with hget2
      subst hget2
      simp
    · rw [setFlag_getElem_other _ _ _ _ (fun h => hu h.symm)] at hget2
      have hu2 : u < w.handles.length := by
        have hub : u < w.handles.length + 1 := by
          have := (List.getElem?_eq_some.mp hget2).1
          simpa using this
        omega
      rw [show ({ w with handles := w.handles ++ [⟨qid, false⟩] } : World).handles[u]? =
          w.handles[u]? from List.getElem?_append_left hu2] at hget2
      rw [hiff u hd2 hget2]
      simp [hu]

theorem inv_qubitInit (w : World) (a : Bool) (va : Option Nat) (inv : WorldInv w) :
    WorldInv (qubitInit w a va).1 := by
  obtain ⟨qid, w2, heq, hh, ha⟩ := qubitInit_decomp w a va
  have inv2 : WorldInv w2 :=
    WorldInv_of_eq w w2 hh.symm ha.symm inv
  have := inv_freshActivate w2 qid inv2
  rw [heq]
  exact this

theorem measure_ok_inv (w : World) (t : Nat) (fut : Option Future) (ip sa : Bool)
    (w1 : World) (f : Future)
    (h : Qubit.measure w t fut ip sa = .ok (w1, f)) :
    ∃ hd, w.handles[t]? = some hd ∧ hd.active = true ∧
      w1 = (if ip then (measureLowered w hd.qubitId fut ip sa).1
            else setActive (measureLowered w hd.qubitId fut ip sa).1 t false) := by
  unfold Qubit.measure at h
  split at h
  · cases h
  · cases h
  next u hd hassert hget =>
  have hact : hd.active = true := by
    unfold Qubit.assert_active at hassert
    split at hassert
    next hcond =>
      unfold World.activeFlag at hcond
      rw [hget] at hcond
      simpa using hcond
    · cases hassert
  refine ⟨hd, hget, hact, ?_⟩
  injection h with h
  cases hip : ip <;> rw [hip] at h <;> simp only [if_neg, if_pos, Bool.false_eq_true,
    if_false, if_true] at h ⊢ <;> exact (Prod.mk.injEq .. |>.mp h).1.symm

theorem free_ok_inv (w : World) (t : Nat) (w1 : World)
    (h : Qubit.free w t = .ok w1) :
    ∃ hd, w.handles[t]? = some hd ∧ w1 = addQfreeCommands w hd.qubitId := by
  unfold Qubit.free at h
  split at h
  · cases h
  next hd hget =>
  injection h with h
  exact ⟨hd, hget, h.symm⟩

theorem inv_applyOp (w : World) (op : QubitOp) (inv : WorldInv w) :
    WorldInv (applyOp w op) := by
  cases op with
  | construct a va => exact inv_qubitInit w a va inv
  | setActiveFlag t b => exact inv_setActive w t b inv
  | measureOp t fut ip sa =>
    simp only [applyOp]
    split
    next w1 f hm =>
      obtain ⟨hd, hget, hact, hw1⟩ := measure_ok_inv w t fut ip sa w1 f hm
      subst hw1
      have invl : WorldInv (measureLowered w hd.qubitId fut ip sa).1 :=
        WorldInv_of_eq w _ (measureLowered_handles w hd.qubitId fut ip sa).symm
          (measureLowered_activeQubits w hd.qubitId fut ip sa).symm inv
      cases ip with
      | true => simpa using invl
      | false =>
        simp only [Bool.false_eq_true, if_false]
        exact inv_setActive _ t false invl
    next => exact inv
  | freeOp t =>
    simp only [applyOp]
    split
    next w1 hm =>
      obtain ⟨hd, hget, hw1⟩ := free_ok_inv w t w1 hm
      subst hw1
      exact WorldInv_of_eq w _ rfl rfl inv
    next => exact inv

theorem inv_initial : WorldInv initialWorld := by
  refine ⟨?_, ?_, ?_⟩
  · intro t ht
    simp [initialWorld] at ht
  · simp [initialWorld]
  · intro t hd hget
    simp [initialWorld] at hget

theorem inv_foldl (ops : List QubitOp) :
    ∀ w : World, WorldInv w → WorldInv (ops.foldl applyOp w) := by
  induction ops with
  | nil => intro w inv; exact inv
  | cons op rest ih =>
    intro w inv
    exact ih (applyOp w op) (inv_applyOp w op inv)

/-- Claim C6: over every sequence of qubit-lifecycle operations starting
from a fresh builder (construction, the active setter, measure, free),
every handle whose active flag is true occurs in active_qubits exactly
once — construction auto-registers the handle and repeated activation
never inserts a duplicate. -/
theorem active_qubit_in_set_exactly_once (ops : List QubitOp) (t : Nat)
    (hd : QubitHandle)
    (hget : (ops.foldl applyOp initialWorld).handles[t]? = some hd)
    (hact : hd.active = true) :
    (ops.foldl applyOp initialWorld).activeQubits.count t = 1 := by
  obtain ⟨hbound, hnd, hiff⟩ := inv_foldl ops initialWorld inv_initial
  exact List.count_eq_one_of_mem hnd ((hiff t hd hget).mp hact)

theorem active_qubit_in_set_exactly_once_witness :
    ([QubitOp.construct true none,
      QubitOp.setActiveFlag 0 true].foldl applyOp initialWorld).handles[0]? =
        some { qubitId := 0, active := true } ∧
    ([QubitOp.construct true none,
      QubitOp.setActiveFlag 0 true].foldl applyOp initialWorld).activeQubits.count 0 = 1 :=
  ⟨rfl, active_qubit_in_set_exactly_once
    [QubitOp.construct true none, QubitOp.setActiveFlag 0 true] 0 ⟨0, true⟩ rfl rfl⟩

theorem measure_ok_eq (w : World) (t : Nat) (fut : Option Future) (ip sa : Bool)
    (hd : QubitHandle) (hget : w.handles[t]? = some hd) (hact : hd.active = true) :
    Qubit.measure w t fut ip sa =
      .ok (if ip then measureLowered w hd.qubitId fut ip sa
           else (setActive (measureLowered w hd.qubitId fut ip sa).1 t false,
                 (measureLowered w hd.qubitId fut ip sa).2)) := by
  have hassert : Qubit.assert_active w t = .ok () := by
    unfold Qubit.assert_active World.activeFlag
    rw [hget]
    simp [hact]
  unfold Qubit.measure
  rw [hassert, hget]

theorem measure_inactive_error (w : World) (t : Nat) (fut : Option Future)
    (ip sa : Bool) (hflag : w.activeFlag t = some false) :
    Qubit.measure w t fut ip sa = .error "QubitNotActiveError" := by
  have hassert : Qubit.assert_active w t = .error "QubitNotActiveError" := by
    unfold Qubit.assert_active
    rw [hflag]
    rw [if_neg (by simp)]
  unfold Qubit.measure
  rw [hassert]

theorem setActive_same (w : World) (t : Nat) (b : Bool)
    (hflag : w.activeFlag t = some b) : setActive w t b = w := by
  unfold World.activeFlag at hflag
  cases hget : w.handles[t]? with
  | none => rw [hget] at hflag; cases hflag
  | some hd =>
    rw [hget] at hflag
    simp only [Option.map_some'] at hflag
    injection hflag with hflag
    simp [setActive, hget, hflag]

theorem setActive_true_of_inactive (w : World) (t : Nat) (hd : QubitHandle)
    (hget : w.handles[t]? = some hd) (hinact : hd.active = false) :
    (setActive w t true).activeFlag t = some true ∧
    t ∈ (setActive w t true).activeQubits := by
  have hres : setActive w t true = activateTok (setFlag w t true) t := by
    simp [setActive, hget, hinact]
  rw [hres]
  constructor
  · unfold World.activeFlag
    rw [activateTok_handles,
      setFlag_getElem_self _ _ _ _ (setFlag_getElem_self w t true hd hget)]
    rfl
  · rw [activateTok_activeQubits, setFlag_activeQubits]
    by_cases hmem : t ∈ w.activeQubits
    · rw [if_pos hmem]; exact hmem
    · rw [if_neg hmem]; simp

theorem setActive_false_spec (w : World) (t : Nat) (hd : QubitHandle)
    (hget : w.handles[t]? = some hd) (hact : hd.active = true)
    (hnd : w.activeQubits.Nodup) :
    (setActive w t false).activeFlag t = some false ∧
    t ∉ (setActive w t false).activeQubits := by
  have hres : setActive w t false = deactivateTok (setFlag w t false) t := by
    simp [setActive, hget, hact]
  rw [hres]
  constructor
  · unfold World.activeFlag
    rw [deactivateTok_handles,
      setFlag_getElem_self _ _ _ _ (setFlag_getElem_self w t false hd hget)]
    rfl
  · rw [deactivateTok_activeQubits, setFlag_activeQubits]
    by_cases hmem : t ∈ w.activeQubits
    · rw [if_pos hmem]
      intro hin
      exact absurd (hnd.mem_erase_iff.mp hin).1 (by simp)
    · rw [if_neg hmem]; exact hmem

/-- A reachable world holding one active qubit handle (token 0): the
result of constructing one Qubit on a fresh builder. -/
def exampleFreshWorld : World := applyOp initialWorld (.construct true none)

/-- A reachable world whose only handle (token 0) has been deactivated by
a destructive measurement. -/
def exampleMeasuredWorld : World :=
  applyOp exampleFreshWorld (.measureOp 0 none false true)

/-- Claim C2, amended: Qubit.measure checks activeness first (via
assert_active) and raises QubitNotActive on an inactive handle, but the
gate methods — X, H, rot_X, cnot — perform no activeness check at all:
they dispatch to the builder and emit their instructions successfully
even when the handle is inactive.  The original claim that every method
checks activeness is false. -/
theorem only_measure_checks_active (w : World) (t tTarget n d : Nat)
    (fut : Option Future) (ip sa : Bool)
    (hflag : w.activeFlag t = some false)
    (htgt : (w.handles[tTarget]?).isSome = true) :
    Qubit.measure w t fut ip sa = .error "QubitNotActiveError" ∧
    (Qubit.X w t).isOk = true ∧ (Qubit.H w t).isOk = true ∧
    (Qubit.rot_X w t n d).isOk = true ∧ (Qubit.cnot w t tTarget).isOk = true := by
  have hflag2 := hflag
  unfold World.activeFlag at hflag2
  cases hget : w.handles[t]? with
  | none => rw [hget] at hflag2; cases hflag2
  | some hd =>
    obtain ⟨prt, hprt⟩ := Option.isSome_iff_exists.mp htgt
    refine ⟨measure_inactive_error w t fut ip sa hflag, ?_, ?_, ?_, ?_⟩
    · unfold Qubit.X; rw [hget]; rfl
    · unfold Qubit.H; rw [hget]; rfl
    · unfold Qubit.rot_X; rw [hget]; rfl
    · unfold Qubit.cnot; rw [hget, hprt]; rfl

theorem only_measure_checks_active_witness :
    Qubit.measure exampleMeasuredWorld 0 none false true =
      .error "QubitNotActiveError" ∧
    (Qubit.X exampleMeasuredWorld 0).isOk = true ∧
    (Qubit.H exampleMeasuredWorld 0).isOk = true ∧
    (Qubit.rot_X exampleMeasuredWorld 0 1 2).isOk = true ∧
    (Qubit.cnot exampleMeasuredWorld 0 0).isOk = true :=
  only_measure_checks_active exampleMeasuredWorld 0 0 1 2 none false true rfl rfl

/-- Claim C2, counterexample: in the reachable world where handle 0 was
destructively measured (so its active flag is false), Qubit.X succeeds
and emits its instructions instead of raising QubitNotActive.  The gate
methods therefore do not check activeness. -/
theorem gate_on_inactive_qubit_no_error :
    exampleMeasuredWorld.activeFlag 0 = some false ∧
    (Qubit.X exampleMeasuredWorld 0).isOk = true := ⟨rfl, rfl⟩

/-- Claim C3, amended: for every active qubit, measure emits — after the
optional future-setup commands — the MEAS instruction, then, if and only
if inplace is false, the QFREE of the qubit, and then the STORE into the
backing cell/register of the future.  The one defect in the original claim
is the relative order of STORE and QFREE: the tests of the repository
(test_branching and test_futures) pin QFREE before STORE, while the claim
places the STORE before the QFREE. -/
theorem measure_emission_order (w : World) (t : Nat) (fut : Option Future)
    (ip sa : Bool) (hd : QubitHandle)
    (hget : w.handles[t]? = some hd) (hact : hd.active = true) :
    (Qubit.measure w t fut ip sa).map (fun r => r.1.commands) =
      .ok (w.commands ++ futureSetupCommands w fut sa ++ [measCmd hd.qubitId] ++
        (if ip then [] else [qfreeCmd hd.qubitId]) ++
        [storeCmd (measureLowered w hd.qubitId fut ip sa).2]) := by
  rw [measure_ok_eq w t fut ip sa hd hget hact]
  cases ip with
  | true =>
    simp only [if_pos, Except.map]
    rw [measureLowered_commands]
    simp
  | false =>
    simp only [Bool.false_eq_true, if_false, Except.map]
    rw [setActive_commands, measureLowered_commands]
    simp

theorem measure_emission_order_witness :
    (Qubit.measure exampleFreshWorld 0 none false true).map
        (fun r => r.1.commands) =
      .ok (exampleFreshWorld.commands ++
        futureSetupCommands exampleFreshWorld none true ++ [measCmd 0] ++
        (if false then [] else [qfreeCmd 0]) ++
        [storeCmd (measureLowered exampleFreshWorld 0 none false true).2]) :=
  measure_emission_order exampleFreshWorld 0 none false true ⟨0, true⟩ rfl rfl

/-- Claim C3, counterexample: measuring the single active qubit of a fresh
builder destructively gives the opcode trace QALLOC, INIT, SET, ARRAY,
MEAS, QFREE, STORE — the QFREE precedes the STORE, contradicting the
claimed order MEAS, then STORE, then QFREE. -/
theorem measure_emission_order_counterexample :
    (Qubit.measure exampleFreshWorld 0 none false true).map
        (fun r => r.1.commands.map Command.instrOf) =
      .ok [some .QALLOC, some .INIT, some .SET, some .ARRAY,
           some .MEAS, some .QFREE, some .STORE] := rfl

/-- Claim C4, amended: free() emits exactly the QFREE instruction; it does
not remove the handle from the active-qubit set of the builder and does not
clear its active flag — after free() the handle is still in active_qubits
and still flagged active. -/
theorem free_emits_qfree_only (w : World) (t : Nat) (hd : QubitHandle)
    (hget : w.handles[t]? = some hd) :
    Qubit.free w t = .ok (w.emit [qfreeCmd hd.qubitId]) ∧
    (w.emit [qfreeCmd hd.qubitId]).activeQubits = w.activeQubits ∧
    (w.emit [qfreeCmd hd.qubitId]).activeFlag t = some hd.active := by
  refine ⟨?_, rfl, ?_⟩
  · unfold Qubit.free
    rw [hget]
    rfl
  · unfold World.activeFlag
    rw [emit_handles, hget]
    rfl

theorem free_emits_qfree_only_witness :
    Qubit.free exampleFreshWorld 0 = .ok (exampleFreshWorld.emit [qfreeCmd 0]) ∧
    (exampleFreshWorld.emit [qfreeCmd 0]).activeQubits =
      exampleFreshWorld.activeQubits ∧
    (exampleFreshWorld.emit [qfreeCmd 0]).activeFlag 0 = some true :=
  free_emits_qfree_only exampleFreshWorld 0 ⟨0, true⟩ rfl

/-- Claim C4, counterexample: in the reachable world with one active
handle, free succeeds yet afterwards the handle is still in active_qubits
(the set is still the singleton of its token) and its active flag is
still true — free removes nothing from the active set. -/
theorem free_does_not_deactivate :
    (Qubit.free exampleFreshWorld 0).map
        (fun w1 => (w1.activeQubits, w1.activeFlag 0)) = .ok ([0], some true) := rfl

/-- Claim C5: measure with inplace false returns exactly the lowered world
with the handle deactivated afterwards (the result is the active setter
applied to the already-lowered world, in whose state the handle is still
active — so deactivation happens only after the lowering was emitted),
the final flag is false and the token is gone from active_qubits; with
inplace true the lowering is returned as is, the handle stays active and
active_qubits is unchanged. -/
theorem measure_deactivates_after_lowering (w : World) (t : Nat)
    (fut : Option Future) (sa : Bool) (hd : QubitHandle)
    (hget : w.handles[t]? = some hd) (hact : hd.active = true)
    (hnd : w.activeQubits.Nodup) :
    Qubit.measure w t fut false sa =
      .ok (setActive (measureLowered w hd.qubitId fut false sa).1 t false,
           (measureLowered w hd.qubitId fut false sa).2) ∧
    (measureLowered w hd.qubitId fut false sa).1.activeFlag t = some true ∧
    (setActive (measureLowered w hd.qubitId fut false sa).1 t false).activeFlag t
      = some false ∧
    t ∉ (setActive (measureLowered w hd.qubitId fut false sa).1 t false).activeQubits ∧
    Qubit.measure w t fut true sa = .ok (measureLowered w hd.qubitId fut true sa) ∧
    (measureLowered w hd.qubitId fut true sa).1.activeFlag t = some true ∧
    (measureLowered w hd.qubitId fut true sa).1.activeQubits = w.activeQubits := by
  have hmlget : ∀ ip : Bool,
      (measureLowered w hd.qubitId fut ip sa).1.handles[t]? = some hd := by
    intro ip
    rw [measureLowered_handles]
    exact hget
  have hmlflag : ∀ ip : Bool,
      (measureLowered w hd.qubitId fut ip sa).1.activeFlag t = some true := by
    intro ip
    rw [activeFlag_congr _ w t (measureLowered_handles w hd.qubitId fut ip sa)]
    unfold World.activeFlag
    rw [hget]
    simp [hact]
  obtain ⟨hf, hnm⟩ := setActive_false_spec (measureLowered w hd.qubitId fut false sa).1
    t hd (hmlget false) hact
    (by rw [measureLowered_activeQubits]; exact hnd)
  exact ⟨measure_ok_eq w t fut false sa hd hget hact, hmlflag false, hf, hnm,
    measure_ok_eq w t fut true sa hd hget hact, hmlflag true,
    measureLowered_activeQubits w hd.qubitId fut true sa⟩

theorem measure_deactivates_after_lowering_witness :
    Qubit.measure exampleFreshWorld 0 none false true =
      .ok (setActive (measureLowered exampleFreshWorld 0 none false true).1 0 false,
           (measureLowered exampleFreshWorld 0 none false true).2) ∧
    (measureLowered exampleFreshWorld 0 none false true).1.activeFlag 0 = some true ∧
    (setActive (measureLowered exampleFreshWorld 0 none false true).1 0
        false).activeFlag 0 = some false ∧
    0 ∉ (setActive (measureLowered exampleFreshWorld 0 none false true).1 0
        false).activeQubits ∧
    Qubit.measure exampleFreshWorld 0 none true true =
      .ok (measureLowered exampleFreshWorld 0 none true true) ∧
    (measureLowered exampleFreshWorld 0 none true true).1.activeFlag 0 = some true ∧
    (measureLowered exampleFreshWorld 0 none true true).1.activeQubits =
      exampleFreshWorld.activeQubits :=
  measure_deactivates_after_lowering exampleFreshWorld 0 none true ⟨0, true⟩
    rfl rfl (by decide)

/-- Claim C9: the active setter is idempotent and permissive — writing the
value the flag already has leaves the world (handle and active-qubit set
included) completely unchanged, and writing true to a deactivated handle
re-activates it and re-inserts it into active_qubits. -/
theorem active_setter_idempotent_permissive (w : World) (t : Nat) (b : Bool)
    (hflag : w.activeFlag t = some b) :
    setActive w t b = w ∧
    (b = false → (setActive w t true).activeFlag t = some true ∧
      t ∈ (setActive w t true).activeQubits) := by
  refine ⟨setActive_same w t b hflag, fun hb => ?_⟩
  subst hb
  have hflag2 := hflag
  unfold World.activeFlag at hflag2
  cases hget : w.handles[t]? with
  | none => rw [hget] at hflag2; cases hflag2
  | some hd =>
    rw [hget] at hflag2
    simp only [Option.map_some'] at hflag2
    injection hflag2 with hflag2
    exact setActive_true_of_inactive w t hd hget hflag2

theorem active_setter_idempotent_permissive_witness :
    setActive exampleMeasuredWorld 0 false = exampleMeasuredWorld ∧
    ((setActive exampleMeasuredWorld 0 true).activeFlag 0 = some true ∧
      0 ∈ (setActive exampleMeasuredWorld 0 true).activeQubits) :=
  ⟨(active_setter_idempotent_permissive exampleMeasuredWorld 0 false rfl).1,
   (active_setter_idempotent_permissive exampleMeasuredWorld 0 false rfl).2 rfl⟩
